import Mathlib

/-!
Verification development for a cellular-automaton dungeon generator
(`src/main.rs`).  The grid model, neighbor counting, the simulation step,
and the generation driver loop are embedded shallowly; machine `usize`
arithmetic appears only as the `as i32` casts in neighbor counting, which
are modelled with unbounded `Int` (faithful for every realizable grid).
-/

/-- The tile state of one grid cell (`enum Tile`): `Wall` or `Floor`. -/
inductive Tile where
  | Wall : Tile
  | Floor : Tile
deriving DecidableEq, Repr

/-- The grid (`struct Dungeon`): `width`, `height`, and `tiles`, a vector of
rows (`Vec<Vec<Tile>>`), indexed `tiles[y][x]`. -/
@[ext]
structure Dungeon where
  width : Nat
  height : Nat
  tiles : List (List Tile)
deriving DecidableEq, Repr

/-- Reading `self.tiles[y][x]`.  The source indexes directly (panicking out of
bounds); every read in the source is bounds-guarded, so the default values
here are never reached on well-formed grids. -/
def getTile (d : Dungeon) (x y : Nat) : Tile :=
  (d.tiles.getD y []).getD x Tile.Wall

/-- Well-formedness: the shape invariant of the data model — `tiles` holds
exactly `height` rows of exactly `width` cells each. -/
def WF (d : Dungeon) : Prop :=
  d.tiles.length = d.height ∧ ∀ r ∈ d.tiles, r.length = d.width

instance (d : Dungeon) : Decidable (WF d) := by
  unfold WF; infer_instance

/-- Constructor `Dungeon::new(width, height)`: `vec![vec![Tile::Wall; width]; height]`. -/
def Dungeon.new (width height : Nat) : Dungeon :=
  { width := width, height := height
    tiles := List.replicate height (List.replicate width Tile.Wall) }

/-- The offsets `(dy, dx)` visited by the two nested loops
`for dy in -1..=1 { for dx in -1..=1 { ... } }` in source order. -/
def neighborOffsets : List (Int × Int) :=
  [(-1, -1), (-1, 0), (-1, 1), (0, -1), (0, 0), (0, 1), (1, -1), (1, 0), (1, 1)]

/-- Method `count_wall_neighbors(&self, x, y)`: walks the 3×3 block around `(x, y)`,
skips the center (`continue`), counts out-of-bounds positions as walls, and
otherwise counts positions holding a `Wall` tile. -/
def count_wall_neighbors (d : Dungeon) (x y : Nat) : Nat :=
  neighborOffsets.foldl
    (fun count o =>
      if o.2 = 0 ∧ o.1 = 0 then count
      else
        if (x : Int) + o.2 < 0 ∨ (y : Int) + o.1 < 0 ∨
            (x : Int) + o.2 ≥ (d.width : Int) ∨ (y : Int) + o.1 ≥ (d.height : Int) then
          count + 1
        else if getTile d ((x : Int) + o.2).toNat ((y : Int) + o.1).toNat = Tile.Wall then
          count + 1
        else count)
    0

/-- The transition rule applied to cell `(x, y)` inside `simulate_step`
(`let new_tile = if wall_count > 4 { Wall } else if wall_count < 4 { Floor }
else { self.tiles[y][x] }`). -/
def stepTile (d : Dungeon) (x y : Nat) : Tile :=
  if count_wall_neighbors d x y > 4 then Tile.Wall
  else if count_wall_neighbors d x y < 4 then Tile.Floor
  else getTile d x y

/-- Method `simulate_step(&mut self) -> bool`: clones `tiles` into `new_tiles`, then
for every `(y, x)` computes the rule on the OLD grid (`self.tiles` is
unchanged until the final assignment), writes the result into `new_tiles`,
and raises `changed` whenever the new tile differs from the old one.
Returns the next-generation grid together with the `changed` flag. -/
def simulate_step (d : Dungeon) : Dungeon × Bool :=
  let res :=
    (List.range d.height).foldl
      (fun acc y =>
        (List.range d.width).foldl
          (fun acc2 x =>
            ((acc2.1).set y (((acc2.1).getD y []).set x (stepTile d x y)),
             if stepTile d x y ≠ getTile d x y then true else acc2.2))
          acc)
      (d.tiles, false)
  ({ width := d.width, height := d.height, tiles := res.1 }, res.2)

/-- Method `initialize_random(&mut self, wall_probability)`, with the per-cell random
draw `rng.gen::<f64>() < wall_probability` injected as a tile chooser
`rng x y` (the spec's injected uniform-draw capability); the double loop
overwrites every in-range cell in place.  (Name shortened from the source's
`initialize_random`.) -/
def init_rand (d : Dungeon) (rng : Nat → Nat → Tile) : Dungeon :=
  { d with
    tiles :=
      (List.range d.height).foldl
        (fun ts y =>
          (List.range d.width).foldl
            (fun ts2 x => ts2.set y ((ts2.getD y []).set x (rng x y)))
            ts)
        d.tiles }

/-- The driver loop in `main`: `for iteration in 0..7 { ...; if
!dungeon.simulate_step() { break } }`, abstracted over the remaining
iteration budget.  Returns the final grid and the number of times
`simulate_step` was invoked. -/
def runLoop : Nat → Dungeon → Dungeon × Nat
  | 0, d => (d, 0)
  | k + 1, d =>
    let s := simulate_step d
    if s.2 then
      let r := runLoop k s.1
      (r.1, r.2 + 1)
    else (s.1, 1)

/-- Iterated stepping: `n` successive applications of `simulate_step`, keeping only the grid. -/
def stepIter : Nat → Dungeon → Dungeon
  | 0, d => d
  | n + 1, d => stepIter n (simulate_step d).1

/-- The fixed bound of the driver loop in `main` (`for iteration in 0..7`). -/
def maxIterations : Nat := 7

/-- The 8 Moore-neighborhood offsets `(dy, dx)` (spec §4.1, the 3×3 block
without its center). -/
def mooreOffsets : List (Int × Int) :=
  [(-1, -1), (-1, 0), (-1, 1), (0, -1), (0, 1), (1, -1), (1, 0), (1, 1)]

/-- Spec-side indicator (edge policy of §4.1): a neighbor position is counted
iff it lies outside `[0,width)×[0,height)` or holds a `Wall` tile. -/
def oobOrWall (d : Dungeon) (x y : Nat) (o : Int × Int) : Bool :=
  decide ((x : Int) + o.2 < 0 ∨ (y : Int) + o.1 < 0 ∨
      (x : Int) + o.2 ≥ (d.width : Int) ∨ (y : Int) + o.1 ≥ (d.height : Int)) ||
    decide (getTile d ((x : Int) + o.2).toNat ((y : Int) + o.1).toNat = Tile.Wall)

/-- Spec-side neighbor count (`neighborWallCount` of §4.1): over the 8 Moore
positions, the number that are out of bounds or hold a `Wall`. -/
def neighborWallCountSpec (d : Dungeon) (x y : Nat) : Nat :=
  (mooreOffsets.filter (oobOrWall d x y)).length

/-- Spec-side synchronous step (§4.2): every next-state computed from the
read-only input grid, assembled as a fresh `height × width` array. -/
def syncStepTiles (d : Dungeon) : List (List Tile) :=
  (List.range d.height).map (fun y => (List.range d.width).map (fun x => stepTile d x y))

/-! ### List helpers for the in-place update folds -/

theorem getD_eq_getElem {α : Type _} (l : List α) (n : Nat) (dflt : α) (h : n < l.length) :
    l.getD n dflt = l[n] := by
  rw [List.getD_eq_getElem?_getD, List.getElem?_eq_getElem h]; rfl

theorem getD_set_self {α : Type _} (l : List α) (n : Nat) (a dflt : α) (h : n < l.length) :
    (l.set n a).getD n dflt = a := by
  rw [List.getD_eq_getElem?_getD, List.getElem?_set_eq h]; rfl

theorem getD_set_ne {α : Type _} (l : List α) {n m : Nat} (a dflt : α) (h : n ≠ m) :
    (l.set n a).getD m dflt = l.getD m dflt := by
  rw [List.getD_eq_getElem?_getD, List.getD_eq_getElem?_getD, List.getElem?_set_ne h]

theorem set_getD_self {α : Type _} :
    ∀ (l : List α) (n : Nat) (dflt : α), n < l.length → l.set n (l.getD n dflt) = l := by
  intro l
  induction l with
  | nil => intro n dflt h; simp at h
  | cons a l ih =>
    intro n dflt h
    cases n with
    | zero => simp
    | succ n => simpa using ih n dflt (by simpa using h)

theorem foldl_set_length {α : Type _} (t : Nat → α) :
    ∀ (xs : List Nat) (r : List α),
      (xs.foldl (fun r2 x => r2.set x (t x)) r).length = r.length := by
  intro xs
  induction xs with
  | nil => intro r; rfl
  | cons x xs ih => intro r; rw [List.foldl_cons, ih, List.length_set]

theorem foldl_set_range_getD {α : Type _} (t : Nat → α) (dflt : α) :
    ∀ (k : Nat) (r : List α), k ≤ r.length → ∀ i : Nat,
      ((List.range k).foldl (fun r2 x => r2.set x (t x)) r).getD i dflt
        = if i < k then t i else r.getD i dflt := by
  intro k
  induction k with
  | zero => intro r _ i; simp
  | succ k ih =>
    intro r hk i
    rw [List.range_succ, List.foldl_append, List.foldl_cons, List.foldl_nil]
    by_cases hik : i = k
    · subst hik
      rw [getD_set_self _ _ _ _ (by rw [foldl_set_length]; omega)]
      simp
    · rw [getD_set_ne _ _ _ (fun hh => hik hh.symm), ih r (by omega) i]
      have h3 : (i < k + 1) ↔ (i < k) := by omega
      simp [h3]

theorem foldl_set_range_eq_map {α : Type _} (t : Nat → α) (r : List α) :
    ((List.range r.length).foldl (fun r2 x => r2.set x (t x)) r)
      = (List.range r.length).map t := by
  apply List.ext_getElem
  · rw [foldl_set_length]; simp
  · intro i h1 h2
    have hi : i < r.length := by rw [foldl_set_length] at h1; exact h1
    rw [← getD_eq_getElem _ _ (t i) h1,
      foldl_set_range_getD t (t i) r.length r le_rfl i, if_pos hi]
    simp

theorem getD_append_len {α : Type _} :
    ∀ (A : List α) (b : α) (C : List α) (dflt : α), (A ++ b :: C).getD A.length dflt = b := by
  intro A
  induction A with
  | nil => intro b C dflt; rfl
  | cons a A ih => intro b C dflt; simpa using ih b C dflt

theorem set_append_len {α : Type _} :
    ∀ (A : List α) (b v : α) (C : List α), (A ++ b :: C).set A.length v = A ++ v :: C := by
  intro A
  induction A with
  | nil => intro b v C; rfl
  | cons a A ih => intro b v C; simpa using ih b v C

theorem foldl_rowset_eq {α : Type _} (t : Nat → α) (y : Nat) :
    ∀ (xs : List Nat) (ts : List (List α)), y < ts.length →
      xs.foldl (fun ts2 x => ts2.set y ((ts2.getD y []).set x (t x))) ts
        = ts.set y (xs.foldl (fun r x => r.set x (t x)) (ts.getD y [])) := by
  intro xs
  induction xs with
  | nil => intro ts h; simp only [List.foldl_nil]; rw [set_getD_self _ _ _ h]
  | cons x xs ih =>
    intro ts h
    rw [List.foldl_cons, List.foldl_cons, ih _ (by rw [List.length_set]; exact h),
      getD_set_self _ _ _ _ h, List.set_set]

/-- Characterization of the nested write-every-cell fold: writing `t x y` into
every cell of the first `k` rows of a well-shaped `ts` replaces those rows by
freshly computed ones and leaves the remaining rows untouched. -/
theorem grid_foldl_spec {α : Type _} (w : Nat) (t : Nat → Nat → α) :
    ∀ (k : Nat) (ts : List (List α)), k ≤ ts.length → (∀ r ∈ ts, r.length = w) →
      ((List.range k).foldl
          (fun ts1 y =>
            (List.range w).foldl
              (fun ts2 x => ts2.set y ((ts2.getD y []).set x (t x y))) ts1)
          ts)
        = ((List.range k).map (fun y => (List.range w).map (fun x => t x y))) ++ ts.drop k := by
  intro k
  induction k with
  | zero => intro ts _ _; simp
  | succ k ih =>
    intro ts hk hw
    rw [List.range_succ, List.foldl_append, List.foldl_cons, List.foldl_nil,
      ih ts (by omega) hw]
    have hk' : k < ts.length := by omega
    have hA : ((List.range k).map (fun y => (List.range w).map (fun x => t x y))).length = k := by
      simp
    rw [List.drop_eq_getElem_cons hk',
      foldl_rowset_eq (fun x => t x k) k (List.range w) _ (by simp; omega)]
    have hget : (((List.range k).map (fun y => (List.range w).map (fun x => t x y)))
        ++ ts[k] :: ts.drop (k + 1)).getD k [] = ts[k] := by
      calc (((List.range k).map (fun y => (List.range w).map (fun x => t x y)))
            ++ ts[k] :: ts.drop (k + 1)).getD k []
          = (((List.range k).map (fun y => (List.range w).map (fun x => t x y)))
            ++ ts[k] :: ts.drop (k + 1)).getD
              ((List.range k).map (fun y => (List.range w).map (fun x => t x y))).length [] := by
            rw [hA]
        _ = ts[k] := getD_append_len _ _ _ _
    rw [hget]
    have hrk : (ts[k]).length = w := hw _ (List.getElem_mem hk')
    have hmap : (List.range w).foldl (fun r x => r.set x (t x k)) ts[k]
        = (List.range w).map (fun x => t x k) := by
      rw [← hrk, foldl_set_range_eq_map (fun x => t x k) ts[k]]
    rw [hmap]
    have hset : (((List.range k).map (fun y => (List.range w).map (fun x => t x y)))
        ++ ts[k] :: ts.drop (k + 1)).set k ((List.range w).map (fun x => t x k))
        = ((List.range k).map (fun y => (List.range w).map (fun x => t x y)))
          ++ ((List.range w).map (fun x => t x k)) :: ts.drop (k + 1) := by
      calc (((List.range k).map (fun y => (List.range w).map (fun x => t x y)))
            ++ ts[k] :: ts.drop (k + 1)).set k ((List.range w).map (fun x => t x k))
          = (((List.range k).map (fun y => (List.range w).map (fun x => t x y)))
            ++ ts[k] :: ts.drop (k + 1)).set
              ((List.range k).map (fun y => (List.range w).map (fun x => t x y))).length
              ((List.range w).map (fun x => t x k)) := by rw [hA]
        _ = _ := set_append_len _ _ _ _
    rw [hset, List.map_append]
    simp

/-- The pair accumulator of the inner loop of `simulate_step` splits into the
tiles component and the `changed` component. -/
theorem step_inner_split (d : Dungeon) (y : Nat) :
    ∀ (xs : List Nat) (p : List (List Tile) × Bool),
      xs.foldl
          (fun acc2 x =>
            ((acc2.1).set y (((acc2.1).getD y []).set x (stepTile d x y)),
             if stepTile d x y ≠ getTile d x y then true else acc2.2))
          p
        = (xs.foldl (fun ts x => ts.set y ((ts.getD y []).set x (stepTile d x y))) p.1,
           xs.foldl (fun b x => if stepTile d x y ≠ getTile d x y then true else b) p.2) := by
  intro xs
  induction xs with
  | nil => intro p; rfl
  | cons x xs ih =>
    intro p
    rw [List.foldl_cons, List.foldl_cons, List.foldl_cons, ih]

/-- The pair accumulator of the outer loop of `simulate_step` splits into the
tiles component and the `changed` component. -/
theorem step_outer_split (d : Dungeon) :
    ∀ (ys : List Nat) (p : List (List Tile) × Bool),
      ys.foldl
          (fun acc y =>
            (List.range d.width).foldl
              (fun acc2 x =>
                ((acc2.1).set y (((acc2.1).getD y []).set x (stepTile d x y)),
                 if stepTile d x y ≠ getTile d x y then true else acc2.2))
              acc)
          p
        = (ys.foldl
            (fun ts y =>
              (List.range d.width).foldl
                (fun ts2 x => ts2.set y ((ts2.getD y []).set x (stepTile d x y))) ts)
            p.1,
           ys.foldl
            (fun b y =>
              (List.range d.width).foldl
                (fun b2 x => if stepTile d x y ≠ getTile d x y then true else b2) b)
            p.2) := by
  intro ys
  induction ys with
  | nil => intro p; rfl
  | cons y ys ih =>
    intro p
    rw [List.foldl_cons, List.foldl_cons, List.foldl_cons, step_inner_split d y, ih]

theorem foldl_if_or (p : Nat → Prop) [DecidablePred p] :
    ∀ (xs : List Nat) (b : Bool),
      xs.foldl (fun b2 x => if p x then true else b2) b
        = (b || xs.any (fun x => decide (p x))) := by
  intro xs
  induction xs with
  | nil => intro b; simp
  | cons x xs ih =>
    intro b
    rw [List.foldl_cons, ih]
    by_cases h : p x <;> simp [h, Bool.or_comm, Bool.or_assoc, Bool.or_left_comm]

theorem foldl_or_any (q : Nat → Bool) :
    ∀ (xs : List Nat) (b : Bool),
      xs.foldl (fun b2 x => b2 || q x) b = (b || xs.any q) := by
  intro xs
  induction xs with
  | nil => intro b; simp
  | cons x xs ih =>
    intro b
    rw [List.foldl_cons, ih]
    simp [Bool.or_assoc]

/-- Closed form of the `changed` accumulator of `simulate_step`: it is raised
iff some in-range cell is assigned a tile different from its current one. -/
theorem changed_fold_eq (d : Dungeon) :
    ∀ (ys : List Nat) (b : Bool),
      ys.foldl
          (fun b2 y =>
            (List.range d.width).foldl
              (fun b3 x => if stepTile d x y ≠ getTile d x y then true else b3) b2)
          b
        = (b || ys.any (fun y =>
            (List.range d.width).any (fun x => decide (stepTile d x y ≠ getTile d x y)))) := by
  intro ys
  induction ys with
  | nil => intro b; simp
  | cons y ys ih =>
    intro b
    rw [List.foldl_cons, ih,
      foldl_if_or (fun x => stepTile d x y ≠ getTile d x y) (List.range d.width) b]
    simp [Bool.or_assoc]

/-- The tiles component of `simulate_step` is the tiles-only fold. -/
theorem simulate_step_fst_tiles_raw (d : Dungeon) :
    (simulate_step d).1.tiles
      = (List.range d.height).foldl
          (fun ts y =>
            (List.range d.width).foldl
              (fun ts2 x => ts2.set y ((ts2.getD y []).set x (stepTile d x y))) ts)
          d.tiles := by
  have h := step_outer_split d (List.range d.height) (d.tiles, false)
  calc (simulate_step d).1.tiles
      = ((List.range d.height).foldl
          (fun acc y =>
            (List.range d.width).foldl
              (fun acc2 x =>
                ((acc2.1).set y (((acc2.1).getD y []).set x (stepTile d x y)),
                 if stepTile d x y ≠ getTile d x y then true else acc2.2))
              acc)
          (d.tiles, false)).1 := rfl
    _ = _ := by rw [h]

/-- The `changed` component of `simulate_step` is the flag-only fold. -/
theorem simulate_step_snd_raw (d : Dungeon) :
    (simulate_step d).2
      = (List.range d.height).foldl
          (fun b y =>
            (List.range d.width).foldl
              (fun b2 x => if stepTile d x y ≠ getTile d x y then true else b2) b)
          false := by
  have h := step_outer_split d (List.range d.height) (d.tiles, false)
  calc (simulate_step d).2
      = ((List.range d.height).foldl
          (fun acc y =>
            (List.range d.width).foldl
              (fun acc2 x =>
                ((acc2.1).set y (((acc2.1).getD y []).set x (stepTile d x y)),
                 if stepTile d x y ≠ getTile d x y then true else acc2.2))
              acc)
          (d.tiles, false)).2 := rfl
    _ = _ := by rw [h]

/-- On a well-formed grid, `simulate_step` produces exactly the synchronous
next-generation array computed from the read-only input grid. -/
theorem simulate_step_tiles (d : Dungeon) (h : WF d) :
    (simulate_step d).1.tiles = syncStepTiles d := by
  obtain ⟨h1, h2⟩ := h
  rw [simulate_step_fst_tiles_raw,
    grid_foldl_spec d.width (fun x y => stepTile d x y) d.height d.tiles (by omega) h2]
  have hd : d.tiles.drop d.height = [] := by
    rw [← h1]; exact List.drop_length d.tiles
  rw [hd, List.append_nil]
  rfl

theorem simulate_step_changed (d : Dungeon) :
    (simulate_step d).2
      = (List.range d.height).any (fun y =>
          (List.range d.width).any (fun x => decide (stepTile d x y ≠ getTile d x y))) := by
  rw [simulate_step_snd_raw, changed_fold_eq d (List.range d.height) false]
  simp

theorem getD_range_map {α : Type _} (f : Nat → α) (n i : Nat) (dflt : α) (h : i < n) :
    ((List.range n).map f).getD i dflt = f i := by
  rw [getD_eq_getElem _ _ _ (by simp [h])]
  simp

/-- Pointwise reading of the next generation: inside the grid, the new tile is
the transition rule applied to the old grid. -/
theorem getTile_simulate_step (d : Dungeon) (h : WF d) {x y : Nat}
    (hx : x < d.width) (hy : y < d.height) :
    getTile (simulate_step d).1 x y = stepTile d x y := by
  unfold getTile
  rw [simulate_step_tiles d h]
  unfold syncStepTiles
  rw [getD_range_map _ _ _ _ hy, getD_range_map _ _ _ _ hx]

/-- The counting fold of `count_wall_neighbors` counts exactly the non-center
offsets whose position is out of bounds or holds a `Wall`. -/
theorem count_foldl_filter (d : Dungeon) (x y : Nat) :
    ∀ (os : List (Int × Int)) (c : Nat),
      os.foldl
          (fun count o =>
            if o.2 = 0 ∧ o.1 = 0 then count
            else
              if (x : Int) + o.2 < 0 ∨ (y : Int) + o.1 < 0 ∨
                  (x : Int) + o.2 ≥ (d.width : Int) ∨ (y : Int) + o.1 ≥ (d.height : Int) then
                count + 1
              else if getTile d ((x : Int) + o.2).toNat ((y : Int) + o.1).toNat = Tile.Wall then
                count + 1
              else count)
          c
        = c + (os.filter
            (fun o => decide ¬(o.2 = 0 ∧ o.1 = 0) && oobOrWall d x y o)).length := by
  intro os
  induction os with
  | nil => intro c; simp
  | cons o os ih =>
    intro c
    rw [List.foldl_cons, List.filter_cons]
    by_cases hc : o.2 = 0 ∧ o.1 = 0
    · simp only [if_pos hc, ih]
      simp [hc]
    · by_cases hb : (x : Int) + o.2 < 0 ∨ (y : Int) + o.1 < 0 ∨
          (x : Int) + o.2 ≥ (d.width : Int) ∨ (y : Int) + o.1 ≥ (d.height : Int)
      · simp only [if_neg hc, if_pos hb, ih]
        simp only [oobOrWall, hc, hb, decide_not]
        simp
        omega
      · by_cases hw : getTile d ((x : Int) + o.2).toNat ((y : Int) + o.1).toNat = Tile.Wall
        · simp only [if_neg hc, if_neg hb, if_pos hw, ih]
          simp only [oobOrWall, hc, hb, hw, decide_not]
          simp
          omega
        · simp only [if_neg hc, if_neg hb, if_neg hw, ih]
          simp only [oobOrWall, hc, hb, hw, decide_not]
          simp

/-- Filtering the 3×3 loop offsets with the center skipped is filtering the
Moore neighborhood. -/
theorem filter_offsets_eq (d : Dungeon) (x y : Nat) :
    neighborOffsets.filter (fun o => decide ¬(o.2 = 0 ∧ o.1 = 0) && oobOrWall d x y o)
      = mooreOffsets.filter (oobOrWall d x y) := by
  simp only [neighborOffsets, mooreOffsets, List.filter_cons, List.filter_nil]
  norm_num

/-- Agreement: `count_wall_neighbors` agrees with the spec-side Moore-neighborhood count. -/
theorem count_eq_spec (d : Dungeon) (x y : Nat) :
    count_wall_neighbors d x y = neighborWallCountSpec d x y := by
  unfold count_wall_neighbors neighborWallCountSpec
  rw [count_foldl_filter d x y neighborOffsets 0, filter_offsets_eq]
  simp

/-! ### Claim theorems -/

/-- A concrete 3×3 all-`Floor` grid, used to instantiate theorems with
hypotheses (it is well-formed and not a fixed point of the automaton). -/
def floorGrid3 : Dungeon :=
  { width := 3, height := 3
    tiles := [[Tile.Floor, Tile.Floor, Tile.Floor],
              [Tile.Floor, Tile.Floor, Tile.Floor],
              [Tile.Floor, Tile.Floor, Tile.Floor]] }

/-- C1: one application of `simulate_step` sets every cell `(x, y)` of the grid
according to the fixed threshold-4 rule on `n = count_wall_neighbors x y` of
the input grid: `Wall` if `n > 4`, `Floor` if `n < 4`, and the cell's current
state if `n = 4`. -/
theorem step_rule_per_cell (d : Dungeon) (h : WF d) (x y : Nat)
    (hx : x < d.width) (hy : y < d.height) :
    getTile (simulate_step d).1 x y =
      (if count_wall_neighbors d x y > 4 then Tile.Wall
       else if count_wall_neighbors d x y < 4 then Tile.Floor
       else getTile d x y) := by
  rw [getTile_simulate_step d h hx hy]
  rfl

/-- Witness for C1 on the concrete 3×3 all-`Floor` grid. -/
theorem step_rule_per_cell_witness :
    getTile (simulate_step floorGrid3).1 0 0 =
      (if count_wall_neighbors floorGrid3 0 0 > 4 then Tile.Wall
       else if count_wall_neighbors floorGrid3 0 0 < 4 then Tile.Floor
       else getTile floorGrid3 0 0) :=
  step_rule_per_cell floorGrid3 (by decide) 0 0 (by decide) (by decide)

/-- C2: `simulate_step` computes every next-state from a read-only snapshot of
the input grid — its output tiles are exactly `syncStepTiles`, the synchronous
(double-buffered) application of the rule to the whole input grid, in which
every cell is a function of the input grid `d` alone. -/
theorem step_synchronous (d : Dungeon) (h : WF d) :
    (simulate_step d).1.tiles = syncStepTiles d :=
  simulate_step_tiles d h

/-- Witness for C2 on the concrete 3×3 all-`Floor` grid. -/
theorem step_synchronous_witness :
    (simulate_step floorGrid3).1.tiles = syncStepTiles floorGrid3 :=
  step_synchronous floorGrid3 (by decide)

/-- C3: `count_wall_neighbors` counts, over the 8 Moore positions, exactly
those that are out of bounds or hold a `Wall`; on a 1×1 grid the count at
`(0,0)` is 8, and on a well-formed grid with both dimensions at least 2 the
corner `(0,0)` counts 5 out-of-bounds positions plus the walls among its
3 in-bounds neighbors. -/
theorem neighbor_count_spec :
    (∀ (d : Dungeon) (x y : Nat),
        count_wall_neighbors d x y = neighborWallCountSpec d x y)
    ∧ (∀ d : Dungeon, d.width = 1 → d.height = 1 → count_wall_neighbors d 0 0 = 8)
    ∧ (∀ d : Dungeon, WF d → 2 ≤ d.width → 2 ≤ d.height →
        count_wall_neighbors d 0 0 =
          5 + ((if getTile d 1 0 = Tile.Wall then 1 else 0)
             + (if getTile d 0 1 = Tile.Wall then 1 else 0)
             + (if getTile d 1 1 = Tile.Wall then 1 else 0))) := by
  refine ⟨count_eq_spec, ?_, ?_⟩
  · intro d h1 h2
    unfold count_wall_neighbors neighborOffsets
    rw [h1, h2]
    norm_num
  · intro d _ hw hh
    have w0 : ¬(d.width = 0) := by omega
    have w1 : ¬(d.width ≤ 1) := by omega
    have k0 : ¬(d.height = 0) := by omega
    have k1 : ¬(d.height ≤ 1) := by omega
    unfold count_wall_neighbors neighborOffsets
    norm_num [w0, w1, k0, k1]
    by_cases g1 : getTile d 1 0 = Tile.Wall <;>
      by_cases g2 : getTile d 0 1 = Tile.Wall <;>
      by_cases g3 : getTile d 1 1 = Tile.Wall <;>
      simp [g1, g2, g3]

/-- Witness for C3: the 1×1 and 2×2 consequences at concrete grids. -/
theorem neighbor_count_spec_witness :
    count_wall_neighbors (Dungeon.new 1 1) 0 0 = 8
    ∧ count_wall_neighbors (Dungeon.new 2 2) 0 0 =
        5 + ((if getTile (Dungeon.new 2 2) 1 0 = Tile.Wall then 1 else 0)
           + (if getTile (Dungeon.new 2 2) 0 1 = Tile.Wall then 1 else 0)
           + (if getTile (Dungeon.new 2 2) 1 1 = Tile.Wall then 1 else 0)) :=
  ⟨neighbor_count_spec.2.1 (Dungeon.new 1 1) rfl rfl,
   neighbor_count_spec.2.2 (Dungeon.new 2 2) (by decide) (by decide) (by decide)⟩

/-- Stepping preserves well-formedness. -/
theorem WF_simulate_step (d : Dungeon) (h : WF d) : WF (simulate_step d).1 := by
  constructor
  · rw [simulate_step_tiles d h]
    simp [syncStepTiles]
    rfl
  · intro r hr
    rw [simulate_step_tiles d h] at hr
    simp only [syncStepTiles, List.mem_map] at hr
    obtain ⟨y, _, rfl⟩ := hr
    simp
    rfl

/-- Reading a well-formed grid through `getTile` is reading the underlying
array. -/
theorem getTile_eq_getElem (d : Dungeon) {x y : Nat}
    (hy' : y < d.tiles.length) (hx' : x < d.tiles[y].length) :
    getTile d x y = d.tiles[y][x] := by
  unfold getTile
  rw [getD_eq_getElem _ _ _ hy', getD_eq_getElem _ _ _ hx']

/-- C5: the boolean returned by `simulate_step` is `true` iff at least one
cell's state differs between the input grid and the output grid. -/
theorem changed_iff (d : Dungeon) (h : WF d) :
    (simulate_step d).2 = true ↔
      ∃ x y : Nat, x < d.width ∧ y < d.height ∧
        getTile (simulate_step d).1 x y ≠ getTile d x y := by
  rw [simulate_step_changed]
  constructor
  · intro hb
    rw [List.any_eq_true] at hb
    obtain ⟨y, hy, hb2⟩ := hb
    rw [List.mem_range] at hy
    rw [List.any_eq_true] at hb2
    obtain ⟨x, hx, hb3⟩ := hb2
    rw [List.mem_range] at hx
    rw [decide_eq_true_eq] at hb3
    exact ⟨x, y, hx, hy, by rw [getTile_simulate_step d h hx hy]; exact hb3⟩
  · rintro ⟨x, y, hx, hy, hne⟩
    rw [List.any_eq_true]
    refine ⟨y, List.mem_range.mpr hy, ?_⟩
    rw [List.any_eq_true]
    refine ⟨x, List.mem_range.mpr hx, ?_⟩
    rw [decide_eq_true_eq]
    rw [getTile_simulate_step d h hx hy] at hne
    exact hne

/-- Witness for C5 on the concrete 3×3 all-`Floor` grid. -/
theorem changed_iff_witness :
    (simulate_step floorGrid3).2 = true ↔
      ∃ x y : Nat, x < floorGrid3.width ∧ y < floorGrid3.height ∧
        getTile (simulate_step floorGrid3).1 x y ≠ getTile floorGrid3 x y :=
  changed_iff floorGrid3 (by decide)

/-- C6: a `changed = false` step is a fixed point: the output grid equals the
input, every further iterate equals the input, and every further step also
reports `changed = false`. -/
theorem step_fixed_point (d : Dungeon) (h : WF d)
    (hc : (simulate_step d).2 = false) :
    (simulate_step d).1 = d
    ∧ ∀ n : Nat, stepIter n d = d ∧ (simulate_step (stepIter n d)).2 = false := by
  have hall : ∀ y, y < d.height → ∀ x, x < d.width → stepTile d x y = getTile d x y := by
    intro y hy x hx
    by_contra hne
    have ht : (simulate_step d).2 = true := by
      rw [simulate_step_changed, List.any_eq_true]
      refine ⟨y, List.mem_range.mpr hy, ?_⟩
      rw [List.any_eq_true]
      exact ⟨x, List.mem_range.mpr hx, by rw [decide_eq_true_eq]; exact hne⟩
    rw [ht] at hc
    cases hc
  obtain ⟨h1, h2⟩ := h
  have htiles : (simulate_step d).1.tiles = d.tiles := by
    rw [simulate_step_tiles d ⟨h1, h2⟩]
    unfold syncStepTiles
    apply List.ext_getElem
    · simp [h1]
    · intro y hy1 hy2
      have hyd : y < d.height := by simpa using hy1
      simp only [List.getElem_map, List.getElem_range]
      apply List.ext_getElem
      · have : (d.tiles[y]).length = d.width := h2 _ (List.getElem_mem hy2)
        simp [this]
      · intro x hx1 hx2
        have hxd : x < d.width := by simpa using hx1
        simp only [List.getElem_map, List.getElem_range]
        rw [hall y hyd x hxd, getTile_eq_getElem d hy2 hx2]
  have hstep : (simulate_step d).1 = d := by
    ext : 1
    · rfl
    · rfl
    · exact htiles
  have hiter : ∀ n : Nat, stepIter n d = d := by
    intro n
    induction n with
    | zero => rfl
    | succ n ih =>
      show stepIter n (simulate_step d).1 = d
      rw [hstep]
      exact ih
  exact ⟨hstep, fun n => ⟨hiter n, by rw [hiter n]; exact hc⟩⟩

/-- Witness for C6 on the all-`Wall` 2×2 grid, which is a fixed point. -/
theorem step_fixed_point_witness :
    (simulate_step (Dungeon.new 2 2)).1 = Dungeon.new 2 2
    ∧ ∀ n : Nat, stepIter n (Dungeon.new 2 2) = Dungeon.new 2 2
        ∧ (simulate_step (stepIter n (Dungeon.new 2 2))).2 = false :=
  step_fixed_point (Dungeon.new 2 2) (by decide) (by decide)

theorem runLoop_count_le : ∀ (k : Nat) (d : Dungeon), (runLoop k d).2 ≤ k := by
  intro k
  induction k with
  | zero => intro d; simp [runLoop]
  | succ k ih =>
    intro d
    by_cases hc : (simulate_step d).2
    · simp only [runLoop, hc, if_true]
      have := ih (simulate_step d).1
      omega
    · simp [runLoop, hc]

/-- C7: the driver loop invokes `simulate_step` at most `maxIterations = 7`
times, and whenever an invocation returns `changed = false` the loop stops
right after it (exactly one invocation is performed from that state,
whatever budget remains). -/
theorem loop_bounded_and_breaks :
    (∀ d : Dungeon, (runLoop maxIterations d).2 ≤ maxIterations)
    ∧ (∀ (k : Nat) (d : Dungeon), (simulate_step d).2 = false →
        runLoop (k + 1) d = ((simulate_step d).1, 1)) := by
  constructor
  · intro d
    exact runLoop_count_le maxIterations d
  · intro k d hc
    simp [runLoop, hc]

/-- Witness for C7: the bound on a concrete grid, and the immediate break on
the stable all-`Wall` 2×2 grid with budget 3. -/
theorem loop_bounded_and_breaks_witness :
    (runLoop maxIterations floorGrid3).2 ≤ maxIterations
    ∧ runLoop 3 (Dungeon.new 2 2) = ((simulate_step (Dungeon.new 2 2)).1, 1) :=
  ⟨loop_bounded_and_breaks.1 floorGrid3,
   loop_bounded_and_breaks.2 2 (Dungeon.new 2 2) (by decide)⟩

/-- C8: `new width height` constructs a grid of exactly `width * height`
cells, every one of which is `Wall`. -/
theorem new_all_wall (w h : Nat) :
    ((Dungeon.new w h).tiles.flatten).length = w * h
    ∧ ∀ t ∈ (Dungeon.new w h).tiles.flatten, t = Tile.Wall := by
  constructor
  · simp [Dungeon.new, List.map_replicate, List.sum_replicate, smul_eq_mul,
      Nat.mul_comm]
  · intro t ht
    simp only [Dungeon.new, List.mem_flatten, List.mem_replicate] at ht
    obtain ⟨l, ⟨_, rfl⟩, htl⟩ := ht
    exact (List.mem_replicate.mp htl).2

/-- Witness for C8 at the concrete dimensions 2×3. -/
theorem new_all_wall_witness :
    ((Dungeon.new 2 3).tiles.flatten).length = 2 * 3
    ∧ (Dungeon.new 2 3).tiles.flatten.getD 0 Tile.Floor = Tile.Wall :=
  ⟨(new_all_wall 2 3).1, (new_all_wall 2 3).2 _ (by decide)⟩

/-- C4 counterexample: at the concrete invalid input `width = height = 0`,
`new` does not fail — it constructs and returns a grid, carrying the zero
dimensions verbatim. -/
theorem new_zero_accepted :
    (Dungeon.new 0 0).width = 0 ∧ (Dungeon.new 0 0).height = 0
    ∧ (Dungeon.new 0 0).tiles = [] :=
  ⟨rfl, rfl, rfl⟩

/-- C4 amended: `new` is a total constructor with no failure path: for every
`width` and `height` — zero included — it returns a well-formed grid with
those exact dimensions (neither clamped nor rejected). -/
theorem new_total (w h : Nat) :
    (Dungeon.new w h).width = w ∧ (Dungeon.new w h).height = h
    ∧ WF (Dungeon.new w h) := by
  refine ⟨rfl, rfl, by simp [Dungeon.new], ?_⟩
  intro r hr
  simp only [Dungeon.new, List.mem_replicate] at hr
  rw [hr.2]
  simp [Dungeon.new]

theorem init_rand_tiles (d : Dungeon) (h : WF d) (rng : Nat → Nat → Tile) :
    (init_rand d rng).tiles
      = (List.range d.height).map (fun y => (List.range d.width).map (fun x => rng x y)) := by
  obtain ⟨h1, h2⟩ := h
  calc (init_rand d rng).tiles
      = (List.range d.height).foldl
          (fun ts y =>
            (List.range d.width).foldl
              (fun ts2 x => ts2.set y ((ts2.getD y []).set x (rng x y))) ts)
          d.tiles := rfl
    _ = _ := by
        rw [grid_foldl_spec d.width rng d.height d.tiles (by omega) h2,
          show d.tiles.drop d.height = [] from by
            rw [← h1]; exact List.drop_length d.tiles,
          List.append_nil]

/-- C9: shape invariance — `simulate_step` (and the in-place randomization)
keep `width` and `height` unchanged and produce a well-formed grid: every
coordinate of `[0,width)×[0,height)` holds exactly one tile. -/
theorem shape_invariant (d : Dungeon) (h : WF d) (rng : Nat → Nat → Tile) :
    (simulate_step d).1.width = d.width
    ∧ (simulate_step d).1.height = d.height
    ∧ WF (simulate_step d).1
    ∧ (init_rand d rng).width = d.width
    ∧ (init_rand d rng).height = d.height
    ∧ WF (init_rand d rng) := by
  refine ⟨rfl, rfl, WF_simulate_step d h, rfl, rfl, ?_, ?_⟩
  · rw [init_rand_tiles d h rng]
    simp [init_rand]
  · intro r hr
    rw [init_rand_tiles d h rng] at hr
    simp only [List.mem_map] at hr
    obtain ⟨y, _, rfl⟩ := hr
    simp [init_rand]

/-- Witness for C9 on the concrete 3×3 all-`Floor` grid. -/
theorem shape_invariant_witness :
    (simulate_step floorGrid3).1.width = floorGrid3.width
    ∧ (simulate_step floorGrid3).1.height = floorGrid3.height
    ∧ WF (simulate_step floorGrid3).1
    ∧ (init_rand floorGrid3 (fun _ _ => Tile.Floor)).width = floorGrid3.width
    ∧ (init_rand floorGrid3 (fun _ _ => Tile.Floor)).height = floorGrid3.height
    ∧ WF (init_rand floorGrid3 (fun _ _ => Tile.Floor)) :=
  shape_invariant floorGrid3 (by decide) (fun _ _ => Tile.Floor)

theorem corner_count_nw (d : Dungeon) : 4 < count_wall_neighbors d 0 0 := by
  unfold count_wall_neighbors neighborOffsets
  norm_num
  split_ifs <;> omega

theorem corner_count_ne (d : Dungeon) (hw : 1 ≤ d.width) :
    4 < count_wall_neighbors d (d.width - 1) 0 := by
  have e1 : ((d.width - 1 : Nat) : Int) + 1 ≥ (d.width : Int) := by omega
  unfold count_wall_neighbors neighborOffsets
  norm_num [e1]
  split_ifs <;> omega

theorem corner_count_sw (d : Dungeon) (hh : 1 ≤ d.height) :
    4 < count_wall_neighbors d 0 (d.height - 1) := by
  have e1 : ((d.height - 1 : Nat) : Int) + 1 ≥ (d.height : Int) := by omega
  unfold count_wall_neighbors neighborOffsets
  norm_num [e1]
  split_ifs <;> omega

theorem corner_count_se (d : Dungeon) (hw : 1 ≤ d.width) (hh : 1 ≤ d.height) :
    4 < count_wall_neighbors d (d.width - 1) (d.height - 1) := by
  have e1 : ((d.width - 1 : Nat) : Int) + 1 ≥ (d.width : Int) := by omega
  have e2 : ((d.height - 1 : Nat) : Int) + 1 ≥ (d.height : Int) := by omega
  unfold count_wall_neighbors neighborOffsets
  norm_num [e1, e2]
  split_ifs <;> omega

/-- One step turns every corner cell into `Wall` (each corner sees at least
five out-of-bounds neighbors, so its count exceeds the threshold). -/
theorem corners_after_step (d : Dungeon) (h : WF d)
    (hw : 1 ≤ d.width) (hh : 1 ≤ d.height) :
    getTile (simulate_step d).1 0 0 = Tile.Wall
    ∧ getTile (simulate_step d).1 (d.width - 1) 0 = Tile.Wall
    ∧ getTile (simulate_step d).1 0 (d.height - 1) = Tile.Wall
    ∧ getTile (simulate_step d).1 (d.width - 1) (d.height - 1) = Tile.Wall := by
  refine ⟨?_, ?_, ?_, ?_⟩
  · rw [getTile_simulate_step d h (by omega) (by omega)]
    unfold stepTile
    rw [if_pos (corner_count_nw d)]
  · rw [getTile_simulate_step d h (by omega) (by omega)]
    unfold stepTile
    rw [if_pos (corner_count_ne d hw)]
  · rw [getTile_simulate_step d h (by omega) (by omega)]
    unfold stepTile
    rw [if_pos (corner_count_sw d hh)]
  · rw [getTile_simulate_step d h (by omega) (by omega)]
    unfold stepTile
    rw [if_pos (corner_count_se d hw hh)]

/-- C10: after any positive number of steps on a well-formed grid with both
dimensions at least 1, all four corner cells are `Wall`, whatever the input
grid's contents — so the corner-wall property is established by the first
step and preserved by every further one. -/
theorem corners_wall_after_steps :
    ∀ (n : Nat) (d : Dungeon), WF d → 1 ≤ d.width → 1 ≤ d.height → 1 ≤ n →
      getTile (stepIter n d) 0 0 = Tile.Wall
      ∧ getTile (stepIter n d) (d.width - 1) 0 = Tile.Wall
      ∧ getTile (stepIter n d) 0 (d.height - 1) = Tile.Wall
      ∧ getTile (stepIter n d) (d.width - 1) (d.height - 1) = Tile.Wall := by
  intro n
  induction n with
  | zero => intro d _ _ _ hn; exact absurd hn (by omega)
  | succ n ih =>
    intro d h hw hh _
    cases Nat.eq_zero_or_pos n with
    | inl h0 =>
      subst h0
      simpa [stepIter] using corners_after_step d h hw hh
    | inr hpos =>
      exact ih (simulate_step d).1 (WF_simulate_step d h) hw hh hpos

/-- Witness for C10: one step on the concrete 3×3 all-`Floor` grid. -/
theorem corners_wall_after_steps_witness :
    getTile (stepIter 1 floorGrid3) 0 0 = Tile.Wall
    ∧ getTile (stepIter 1 floorGrid3) (floorGrid3.width - 1) 0 = Tile.Wall
    ∧ getTile (stepIter 1 floorGrid3) 0 (floorGrid3.height - 1) = Tile.Wall
    ∧ getTile (stepIter 1 floorGrid3) (floorGrid3.width - 1) (floorGrid3.height - 1)
        = Tile.Wall :=
  corners_wall_after_steps 1 floorGrid3 (by decide) (by decide) (by decide) (by decide)
